import Mathlib

/-!
Verification development for the OPENREC-dl stream downloader
(`openrec-dl.py`).  The definitions below are a shallow embedding of the
program's core: the concurrent segment downloader (`StreamDownloader`),
the m3u8 attribute parser (`parse_m3u8_attributes`), the variant resolver
(`get_m3u8_info`), the "best" format selector (the loop in `dl_movie`),
and the playlist URL deriver (`derive_media_playlists`).  Each definition
carries a doc comment pointing at the source lines it embeds.
-/

/-! ## Concurrent segment downloader: shared download state

Source: class `StreamDownloader`, openrec-dl.py lines 81-135. -/

/-- State shared between the download workers and the re-drive loop.
Source: `StreamDownloader.__init__` (lines 87-89): `self.success = True`,
`self.failed_list = []`, `self.completed = {}`.  The Python `completed`
dict maps a sequence index to the per-index temporary file name
(`f"{stream_filename}.seg{ts_index}"`), and the file written for index i
holds exactly the fetched body of segment i; since that file name is
determined by the index, we model the composition directly: `completed`
maps the index to the fetched segment body. -/
structure DlState where
  success : Bool
  failed_list : List (String × Nat)
  completed : Nat → Option String

/-- Result of the retry loop `for retry in range(0, 5)` in
`_download_worker` (lines 110-120): `attempt k` is the outcome of the
k-th `self.m3u8_session.get(ts_segment)` call — `some body` when the
response `.ok` holds, `none` when the request raises or returns a
non-success status.  `tryFrom attempt k n` performs attempts
`k, k+1, ..., k+n-1` in order and returns the first successful body. -/
def tryFrom (attempt : Nat → Option String) : Nat → Nat → Option String
  | _, 0 => none
  | k, n+1 =>
    match attempt k with
    | some b => some b
    | none => tryFrom attempt (k+1) n

/-- One download worker, `StreamDownloader._download_worker`
(lines 107-121).  `t = (ts_segment, ts_index)`.  On the first successful
attempt among the five tries it writes the segment file and publishes the
index into `completed`, then returns, leaving `success` and `failed_list`
untouched.  If all five attempts fail it sets `self.success = False` and
returns; note that it does NOT touch `failed_list` (the source has no
`failed_list.append`). -/
def download_worker (attempt : String → Nat → Option String) (st : DlState)
    (t : String × Nat) : DlState :=
  match tryFrom (attempt t.1) 0 5 with
  | some b => { st with completed := fun i => if i = t.2 then some b else st.completed i }
  | none => { st with success := false }

/-- Effect of `Pool(10).map(self._download_worker, ts_list)` (line 101) on
the shared state.  The pool runs every worker to completion; each worker
either writes its own distinct `completed` key or flips `success` to
`False`, so the combined effect on the shared state is order-independent
and is modelled as a left fold over the work list. -/
def poolMap (attempt : String → Nat → Option String) (st : DlState)
    (ts_list : List (String × Nat)) : DlState :=
  ts_list.foldl (download_worker attempt) st

/-- `StreamDownloader._download_segments` (lines 100-105): run the pool
over the work list; if `success` is false afterwards, take
`failed_list` as the new work list, reset `failed_list` to `[]`, and
recurse.  The Python recursion has no termination measure, so the model
takes a fuel argument; `none` means the fuel was exhausted while the
recursion was still running (in particular, an execution that recurses
at every depth is `none` for every fuel). -/
def download_segments (attempt : String → Nat → Option String) :
    Nat → DlState → List (String × Nat) → Option DlState
  | 0, _, _ => none
  | fuel+1, st, ts_list =>
    let st2 := poolMap attempt st ts_list
    if st2.success then some st2
    else download_segments attempt fuel { st2 with failed_list := [] } st2.failed_list

/-- Initial downloader state, `StreamDownloader.__init__` (lines 87-89). -/
def initDl : DlState := ⟨true, [], fun _ => none⟩

/-- Promotion step of `dl_m3u8_video` (lines 479-484): if
`stream_downloader.success` the temporary file is renamed,
`os.rename(f"{movie_path}.ts.tmp", f"{movie_path}.ts")`; otherwise the
function logs a failure and returns without renaming.  The result is the
`(source, destination)` pair of the rename that is performed, or `none`
when no rename happens. -/
def dl_finalize (movie_path : String) (success : Bool) : Option (String × String) :=
  if success then some (movie_path ++ ".ts.tmp", movie_path ++ ".ts") else none

/-! ## Reassembly consumer

Source: `StreamDownloader._append_file`, lines 123-135, running
concurrently with the worker pool (spawned at line 96). -/

/-- State of the reassembly consumer `_append_file` (lines 123-135)
together with the shared completion map it polls.  `index` is the loop
variable, `output` is the sequence of segment bodies appended to the
`.ts.tmp` output sink so far, `count` is `self.ts_count`. -/
structure AppendState where
  completed : Nat → Option String
  index : Nat
  output : List String
  count : Nat

/-- An event of the interleaved execution of the worker pool and the
reassembly consumer: either some worker publishes `completed[j] = b`
(line 117), or the consumer performs one iteration of its polling loop
(lines 125-134): while `index < ts_count`, if `completed` holds the next
expected index, append that segment's bytes to the output and advance;
otherwise sleep (no state change). -/
inductive DlEvent where
  | publish : Nat → String → DlEvent
  | consume : DlEvent
deriving DecidableEq

/-- One iteration of the consumer's polling loop (lines 125-134): while
`index < ts_count`, if `completed` holds the next expected index, append
that segment's bytes to the output, remove the artifact and advance;
otherwise sleep (no state change). -/
def consumeStep (s : AppendState) : AppendState :=
  if s.index < s.count then
    match s.completed s.index with
    | some b => { s with output := s.output ++ [b], index := s.index + 1 }
    | none => s
  else s

/-- Small-step transition for one event (see `DlEvent`). -/
def stepEvent (s : AppendState) : DlEvent → AppendState
  | DlEvent.publish j b =>
    { s with completed := fun i => if i = j then some b else s.completed i }
  | DlEvent.consume => consumeStep s

/-- Run an arbitrary interleaving of publish and consume events. -/
def runEvents (es : List DlEvent) (s : AppendState) : AppendState :=
  es.foldl stepEvent s

/-- Initial consumer state for a job of `count` segments: empty completion
map, `index = 0` (line 124), empty output file. -/
def initAppend (count : Nat) : AppendState := ⟨fun _ => none, 0, [], count⟩

/-- A trace is faithful to the downloads when every publish event for
index `j` carries the body of segment `j` — in the source, the worker for
segment `j` writes exactly the fetched bytes of segment `j` before
publishing (lines 114-117). -/
def eventOk (body : Nat → String) : DlEvent → Prop
  | DlEvent.publish j b => b = body j
  | DlEvent.consume => True

instance (body : Nat → String) : (e : DlEvent) → Decidable (eventOk body e)
  | DlEvent.publish j b => inferInstanceAs (Decidable (b = body j))
  | DlEvent.consume => inferInstanceAs (Decidable True)

/-- Iterated consumer polling with no further publishes: the situation of
`_append_file` after the worker pool has drained. -/
def consumeSteps : Nat → AppendState → AppendState
  | 0, s => s
  | n+1, s => consumeSteps n (stepEvent s DlEvent.consume)

/-- Invariant of the reassembly interleaving: every published body is the
body of its index, the output is exactly the bodies of the indices below
`index` in increasing order, and `index` never passes `count`. -/
def AppendInv (body : Nat → String) (s : AppendState) : Prop :=
  (∀ i b, s.completed i = some b → b = body i)
  ∧ s.output = (List.range s.index).map body
  ∧ s.index ≤ s.count

/-! ## String primitives

Models of the Python string operations used by the parsing code.  They
work on `List Char` so that all reasoning stays inside structural
recursion. -/

/-- The double-quote character (written via its code point to keep the
source free of quote literals). -/
def dq : Char := Char.ofNat 34

/-- Check that the first list is a prefix of the second
(Python `str.startswith` on the underlying character lists). -/
def isPrefixChars : List Char → List Char → Bool
  | [], _ => true
  | _ :: _, [] => false
  | n :: ns, h :: t => n == h && isPrefixChars ns t

/-- Substring test: does `needle` occur inside `hay`?
(Python `needle in hay`.) -/
def containsChars (needle : List Char) : List Char → Bool
  | [] => isPrefixChars needle []
  | h :: t => isPrefixChars needle (h :: t) || containsChars needle t

/-- Python `s.startswith(p)`. -/
def pyStartsWith (s p : String) : Bool := isPrefixChars p.data s.data

/-- Python `s.endswith(p)`: `p` reversed is a prefix of `s` reversed. -/
def pyEndsWith (s p : String) : Bool := isPrefixChars p.data.reverse s.data.reverse

/-- Python `sub in s`. -/
def pyContains (s sub : String) : Bool := containsChars sub.data s.data

/-- Accumulate a non-empty run of decimal digits (`none` on any
non-digit). -/
def parseDigits : List Char → Nat → Option Nat
  | [], acc => some acc
  | c :: cs, acc =>
    if c.isDigit then parseDigits cs (acc * 10 + (c.toNat - 48)) else none

/-- Python `int(s)` on the string forms this program feeds it (an
optional sign followed by decimal digits): the parsed integer, or `none`
for the `ValueError` cases. -/
def pyIntParse (s : String) : Option Int :=
  match s.data with
  | [] => none
  | c :: cs =>
    if c = '-' then
      match cs with
      | [] => none
      | _ :: _ => (parseDigits cs 0).map (fun n => -(n : Int))
    else if c = '+' then
      match cs with
      | [] => none
      | _ :: _ => (parseDigits cs 0).map (fun n => (n : Int))
    else (parseDigits (c :: cs) 0).map (fun n => (n : Int))

/-! ## Python dict model

The program passes attribute dictionaries around as plain `dict`s; we
model them as association lists in insertion order, with the Python
semantics of `d[k]`-lookup (first matching key) and `d[k] = v`-update
(overwrite in place, else append). -/

/-- Python `d.get(k)` / `k in d` probe on an insertion-ordered dict. -/
def dictGet (k : String) : List (String × String) → Option String
  | [] => none
  | (k2, v) :: rest => if k2 = k then some v else dictGet k rest

/-- Python `d[k] = v`: overwrite the binding in place if the key exists,
otherwise append it. -/
def dictSet : List (String × String) → String → String → List (String × String)
  | [], k, v => [(k, v)]
  | (k2, v2) :: rest, k, v =>
    if k2 = k then (k2, v) :: rest else (k2, v2) :: dictSet rest k v

/-! ## m3u8 attribute parser

Source: `parse_m3u8_attributes` (lines 558-564), which runs
`re.findall(r'(?P<key>[A-Z0-9-]+)=(?P<val>"[^"]+"|[^",]+)(?:,|$)', attrib)`
and builds a dict from the matches, stripping surrounding quotes.  The
functions below implement exactly the backtracking semantics of that
pattern: a maximal run of key characters followed by `=`; then either a
non-empty quoted run (no quotes inside) or a non-empty run free of quotes
and commas; terminated by a comma (consumed) or the end of the input. -/

/-- Character class `[A-Z0-9-]` of the key group. -/
def isKeyChar (c : Char) : Bool := c.isUpper || c.isDigit || c == '-'

/-- Match the regex fragment `(?P<val>"[^"]+"|[^",]+)(?:,|$)` at the head
of the input.  Returns the raw value text (quotes still included) and the
remaining input after the optional comma.  The alternation tries the
quoted branch first; when the input starts with a quote the unquoted
branch can never apply (its class excludes the quote), so a failed quoted
branch fails the whole match, as in the Python regex. -/
def matchValue : List Char → Option (List Char × List Char)
  | [] => none
  | c1 :: rest2 =>
    if c1 = dq then
      let inner := rest2.takeWhile (fun ch => ch != dq)
      if inner = [] then none else
      match rest2.drop inner.length with
      | c2 :: rest3 =>
        if c2 = dq then
          match rest3 with
          | [] => some (dq :: (inner ++ [dq]), [])
          | c3 :: rest4 =>
            if c3 = ',' then some (dq :: (inner ++ [dq]), rest4) else none
        else none
      | [] => none
    else
      let run := (c1 :: rest2).takeWhile (fun ch => ch != dq && ch != ',')
      if run = [] then none else
      match (c1 :: rest2).drop run.length with
      | [] => some (run, [])
      | c3 :: rest4 => if c3 = ',' then some (run, rest4) else none

/-- Try to match the whole attribute pattern at the head of the input:
a non-empty maximal key run, `=`, then a value (see `matchValue`).
Returns the key, the raw value and the rest of the input. -/
def matchAt (s : List Char) : Option (String × List Char × List Char) :=
  let key := s.takeWhile isKeyChar
  if key = [] then none else
  match s.drop key.length with
  | c :: rest1 =>
    if c = '=' then (matchValue rest1).map (fun p => (⟨key⟩, p.1, p.2)) else none
  | [] => none

/-- The scan loop of `re.findall`: try to match at the current position;
on success continue after the match, on failure advance one character.
The fuel argument (instantiated with the input length plus one) only
serves structural recursion — every step consumes at least one
character. -/
def findAllAux : Nat → List Char → List (String × List Char)
  | 0, _ => []
  | _+1, [] => []
  | fuel+1, c :: rest =>
    match matchAt (c :: rest) with
    | some (k, v, rest2) => (k, v) :: findAllAux fuel rest2
    | none => findAllAux fuel rest

/-- All `(key, raw value)` matches of the attribute regex in `s`. -/
def findAll (s : String) : List (String × List Char) :=
  findAllAux (s.length + 1) s.data

/-- `if val.startswith('"'): val = val[1:-1]` (lines 561-562): strip the
first and last character when the raw value starts with a quote. -/
def stripQuotesChars (v : List Char) : List Char :=
  match v with
  | [] => []
  | c :: _ => if c = dq then (v.drop 1).dropLast else v

/-- `parse_m3u8_attributes` (lines 558-564): run the regex scan over the
line and build the attribute dict in match order, stripping surrounding
quotes from quoted values. -/
def parse_m3u8_attributes (line : String) : List (String × String) :=
  (findAll line).foldl (fun info kv => dictSet info kv.1 ⟨stripQuotesChars kv.2⟩) []

/-! ## Variant resolver

Source: `get_m3u8_info` (lines 516-555).  The loop over
`m3u8_text.splitlines()` keeps a current media dict and a current format
dict and emits one entry per rendition URL line. -/

/-- One element of the `m3u8_info` list built by `get_m3u8_info`
(line 550): `{"location": line, "media": media_details,
"format": format_details}`. -/
structure M3u8Entry where
  location : String
  media : List (String × String)
  format : List (String × String)
deriving DecidableEq

/-- Loop state of `get_m3u8_info`: the accumulated `m3u8_info` list and
the pending `media_details` / `format_details` (both `None` initially,
lines 517-521). -/
structure ParseState where
  info : List M3u8Entry
  mediaOpt : Option (List (String × String))
  formatOpt : Option (List (String × String))
deriving DecidableEq

/-- Media-name synthesis for a rendition URL line with format details but
no media details (lines 533-540): `"Source"` if the URL contains the
substring `"source"`; else the second component of the format's
`RESOLUTION` split on `"x"`, with `"p"` appended (an out-of-range index —
a `RESOLUTION` value with no `"x"` — is an uncaught `IndexError` in the
source, modelled as `none`); else the first `/`-separated component of
the URL up to its first `.`.  The synthesized dict gets empty `GROUP-ID`
and `TYPE` (line 540). -/
def synth_media (line : String) (fd : List (String × String)) :
    Option (List (String × String)) :=
  if pyContains line "source" then
    some [("NAME", "Source"), ("GROUP-ID", ""), ("TYPE", "")]
  else
    match dictGet "RESOLUTION" fd with
    | some res =>
      match (res.splitOn "x")[1]? with
      | some second => some [("NAME", second ++ "p"), ("GROUP-ID", ""), ("TYPE", "")]
      | none => none
    | none =>
      some [("NAME", (((line.splitOn "/").headD "").splitOn ".").headD ""),
            ("GROUP-ID", ""), ("TYPE", "")]

/-- Fill the missing optional format attributes with empty strings
(lines 541-546): `FRAME-RATE`, `RESOLUTION` and `CODECS` — but not
`BANDWIDTH` — default to `""` when absent. -/
def fill_defaults (fd : List (String × String)) : List (String × String) :=
  let fd1 := match dictGet "FRAME-RATE" fd with
    | some _ => fd
    | none => dictSet fd "FRAME-RATE" ""
  let fd2 := match dictGet "RESOLUTION" fd1 with
    | some _ => fd1
    | none => dictSet fd1 "RESOLUTION" ""
  match dictGet "CODECS" fd2 with
  | some _ => fd2
  | none => dictSet fd2 "CODECS" ""

/-- One iteration of the `get_m3u8_info` line loop (lines 522-554).
`#EXT-X-MEDIA:` and `#EXT-X-STREAM-INF:` tag lines update the pending
dicts; other `#` lines and non-`.m3u8` lines are skipped (log only); a
`.m3u8` line with pending format details emits an entry (synthesizing
media details if needed, see `synth_media`) and resets both pending
dicts; a `.m3u8` line without format details only logs — note it does
not reset the pending media details.  `none` models the uncaught
`IndexError` inside `synth_media`. -/
def m3u8_step (st : ParseState) (line : String) : Option ParseState :=
  if pyStartsWith line "#EXT-X-MEDIA:" then
    some { st with mediaOpt := some (parse_m3u8_attributes line) }
  else if pyStartsWith line "#EXT-X-STREAM-INF:" then
    some { st with formatOpt := some (parse_m3u8_attributes line) }
  else if pyStartsWith line "#" then
    some st
  else if pyEndsWith line ".m3u8" then
    match st.formatOpt with
    | none => some st
    | some fd =>
      match (match st.mediaOpt with
             | some md => some md
             | none => synth_media line fd) with
      | none => none
      | some md =>
        some { info := st.info ++ [⟨line, md, fill_defaults fd⟩],
               mediaOpt := none, formatOpt := none }
  else some st

/-- `get_m3u8_info` over the manifest's lines (lines 516-555): fold the
line loop from the empty state and return the accumulated entries.
`none` models the uncaught `IndexError` described at `synth_media`. -/
def get_m3u8_info (lines : List String) : Option (List M3u8Entry) :=
  (lines.foldlM m3u8_step ⟨[], none, none⟩).map ParseState.info

/-! ## Format selector, "best" policy

Source: the selection loop of `dl_movie` (lines 284-296), restricted to
the `args.format == "best"` branch.  The Python code raises `KeyError` on
a missing dict key and `ValueError` on a non-numeric `int()` argument;
both are uncaught there. -/

/-- The uncaught exceptions the selection loop can raise. -/
inductive PyErr where
  | keyError : PyErr
  | valueError : PyErr
deriving DecidableEq

/-- Python `d[k]` on an attribute dict: the value, or `KeyError`. -/
def pyDictGet (d : List (String × String)) (k : String) : Except PyErr String :=
  match dictGet k d with
  | some v => Except.ok v
  | none => Except.error PyErr.keyError

/-- Python `int(s)`: the parsed integer (see `pyIntParse`), raising
`ValueError` otherwise. -/
def pyInt (s : String) : Except PyErr Int :=
  match pyIntParse s with
  | some n => Except.ok n
  | none => Except.error PyErr.valueError

/-- The `"best"` branch of the selection loop (lines 284-293):
`downloading_format = None; best_bitrate = 0`, then for each rendition in
order: if its media `NAME` is exactly `"Source"` it is chosen and the
scan breaks; otherwise the rendition becomes the candidate iff
`int(format['BANDWIDTH']) > best_bitrate` (strictly).  The accumulator
`cur` is the current candidate and `best` the current `best_bitrate`.
The model returns the chosen rendition entry (the source then joins its
`location` onto the playlist base URL, line 289/292). -/
def select_best : List M3u8Entry → Option M3u8Entry → Int →
    Except PyErr (Option M3u8Entry)
  | [], cur, _ => Except.ok cur
  | e :: rest, cur, best =>
    match pyDictGet e.media "NAME" with
    | Except.error err => Except.error err
    | Except.ok nm =>
      if nm = "Source" then Except.ok (some e)
      else
        match pyDictGet e.format "BANDWIDTH" with
        | Except.error err => Except.error err
        | Except.ok bs =>
          match pyInt bs with
          | Except.error err => Except.error err
          | Except.ok b =>
            if b > best then select_best rest (some e) b
            else select_best rest cur best

/-- Run the `"best"` selection on a rendition list with the loop's
initial accumulator values (`downloading_format = None`,
`best_bitrate = 0`, lines 284-285). -/
def selectBestFormat (rs : List M3u8Entry) : Except PyErr (Option M3u8Entry) :=
  select_best rs none 0

/-- Parsed bandwidth of a rendition: `int(format['BANDWIDTH'])` when the
key is present and numeric. -/
def bwOf (e : M3u8Entry) : Option Int :=
  (dictGet "BANDWIDTH" e.format).bind pyIntParse

/-! ## Playlist URL deriver

Source: `derive_media_playlists` (lines 340-448).  The claims concern the
fill loop of lines 443-447, which runs when the base URL matched one of
the derivable host patterns and `pl_map` was chosen accordingly. -/

/-- Simplified model of `urllib.parse.urljoin` for the use in this
program: the relative path is resolved against the base URL with its last
path component removed. -/
def urljoin (base rel : String) : String :=
  String.intercalate "/" ((base.splitOn "/").dropLast) ++ "/" ++ rel

/-- One iteration of the fill loop (lines 445-447): if `pl_type` is
absent from the media dict or maps to a falsy (empty) value, set it to
`urljoin(base_url, f"{pl_map[pl_type]}.m3u8")`; otherwise leave the dict
unchanged.  `kv` is the `(pl_type, template)` pair from `pl_map`. -/
def fill_one (base : String) (m : List (String × String)) (kv : String × String) :
    List (String × String) :=
  match dictGet kv.1 m with
  | none => dictSet m kv.1 (urljoin base (kv.2 ++ ".m3u8"))
  | some v =>
    if v = "" then dictSet m kv.1 (urljoin base (kv.2 ++ ".m3u8")) else m

/-- The fill loop `for pl_type in pl_map:` (lines 443-447), iterating the
chosen map's entries in order over the media dict. -/
def derive_fill (plMap : List (String × String)) (base : String)
    (media : List (String × String)) : List (String × String) :=
  match plMap with
  | [] => media
  | kv :: rest => derive_fill rest base (fill_one base media kv)

/-- `NORMAL_MAP` (lines 38-47). -/
def NORMAL_MAP : List (String × String) :=
  [("url", "normal"), ("_url_playlist", "playlist"), ("url_public", "public"),
   ("url_audio", "aac"), ("url_source", "chunklist_source/chunklist"),
   ("url_high", "chunklist_high/chunklist"),
   ("url_medium", "chunklist_medium/chunklist"),
   ("url_low_latency", "chunklist_low/chunklist")]

/-- `PLAYLIST_MAP` (lines 49-59). -/
def PLAYLIST_MAP : List (String × String) :=
  [("url", "playlist"), ("_url_normal", "normal"), ("url_public", "public"),
   ("url_audio", "aac"), ("url_source", "chunklist_source/chunklist"),
   ("url_high", "chunklist_high/chunklist"),
   ("url_medium", "chunklist_medium/chunklist"),
   ("url_low_latency", "chunklist_low/chunklist"),
   ("url_ull", "chunklist_144p/chunklist")]

/-- `GAME_MAP` (lines 61-65). -/
def GAME_MAP : List (String × String) :=
  [("url_source", "source"), ("url_high", "2000kbps"), ("url_medium", "1000kbps")]

/-! ## Lemmas about the retry loop -/

/-- The retry loop only looks at the attempts it performs: two attempt
oracles that agree on indices `k, ..., k+n-1` give the same result. -/
theorem tryFrom_agree (a a2 : Nat → Option String) :
    ∀ n k, (∀ j, k ≤ j → j < k + n → a j = a2 j) → tryFrom a k n = tryFrom a2 k n := by
  intro n
  induction n with
  | zero => intro k _; rfl
  | succ n ih =>
    intro k h
    have hk : a k = a2 k := h k (Nat.le_refl k) (by omega)
    simp only [tryFrom, hk]
    cases a2 k with
    | some b => rfl
    | none => exact ih (k+1) (fun j h1 h2 => h j (by omega) (by omega))

/-- If every attempt performed fails, the retry loop fails. -/
theorem tryFrom_none (a : Nat → Option String) :
    ∀ n k, (∀ j, k ≤ j → j < k + n → a j = none) → tryFrom a k n = none := by
  intro n
  induction n with
  | zero => intro k _; rfl
  | succ n ih =>
    intro k h
    have hk : a k = none := h k (Nat.le_refl k) (by omega)
    simp only [tryFrom, hk]
    exact ih (k+1) (fun j h1 h2 => h j (by omega) (by omega))

/-- If attempt `k + m` succeeds and the attempts before it fail, the
retry loop returns that first successful body. -/
theorem tryFrom_some (a : Nat → Option String) :
    ∀ n m k b, m < n → (∀ j, k ≤ j → j < k + m → a j = none) →
      a (k + m) = some b → tryFrom a k n = some b := by
  intro n
  induction n with
  | zero => intro m k b hm _ _; omega
  | succ n ih =>
    intro m k b hm hnone hsome
    cases m with
    | zero =>
      have : a k = some b := by simpa using hsome
      simp only [tryFrom, this]
    | succ m =>
      have hk : a k = none := hnone k (Nat.le_refl k) (by omega)
      simp only [tryFrom, hk]
      apply ih m (k+1) b (by omega)
      · intro j h1 h2
        exact hnone j (by omega) (by omega)
      · have : k + 1 + m = k + (m + 1) := by omega
        rw [this]
        exact hsome

/-! ## Lemmas about the worker pool -/

/-- A worker never changes the `failed_list` — this is the central defect
behind the re-drive loop: the exhausted-retry branch (line 121) only
clears `success`. -/
theorem download_worker_failed_list (a : String → Nat → Option String)
    (st : DlState) (t : String × Nat) :
    (download_worker a st t).failed_list = st.failed_list := by
  unfold download_worker
  cases tryFrom (a t.1) 0 5 with
  | some b => rfl
  | none => rfl

/-- A worker never sets `success` back to `true`. -/
theorem download_worker_success (a : String → Nat → Option String)
    (st : DlState) (t : String × Nat)
    (h : (download_worker a st t).success = true) : st.success = true := by
  unfold download_worker at h
  cases htf : tryFrom (a t.1) 0 5 with
  | some b => rw [htf] at h; exact h
  | none => rw [htf] at h; exact absurd h (by simp)

/-- The pool never changes the `failed_list`. -/
theorem poolMap_failed_list (a : String → Nat → Option String) :
    ∀ (l : List (String × Nat)) (st : DlState),
      (poolMap a st l).failed_list = st.failed_list := by
  intro l
  induction l with
  | nil => intro st; rfl
  | cons hd rest ih =>
    intro st
    show (poolMap a (download_worker a st hd) rest).failed_list = st.failed_list
    rw [ih (download_worker a st hd), download_worker_failed_list]

/-- The pool never sets `success` back to `true`. -/
theorem poolMap_success (a : String → Nat → Option String) :
    ∀ (l : List (String × Nat)) (st : DlState),
      (poolMap a st l).success = true → st.success = true := by
  intro l
  induction l with
  | nil => intro st h; exact h
  | cons hd rest ih =>
    intro st h
    exact download_worker_success a st hd (ih (download_worker a st hd) h)

/-- A pool run started with a cleared `success` flag leaves it cleared. -/
theorem poolMap_preserves_false (a : String → Nat → Option String)
    (l : List (String × Nat)) (st : DlState) (h : st.success = false) :
    (poolMap a st l).success = false := by
  cases hres : (poolMap a st l).success with
  | false => rfl
  | true => rw [poolMap_success a l st hres] at h; exact Bool.noConfusion h

/-- A worker whose five attempts all fail clears the `success` flag. -/
theorem download_worker_fail (a : String → Nat → Option String)
    (st : DlState) (t : String × Nat) (hfail : ∀ k, k < 5 → a t.1 k = none) :
    (download_worker a st t).success = false := by
  unfold download_worker
  rw [tryFrom_none (a t.1) 5 0 (fun j _ h2 => hfail j (by omega))]

/-- A pool whose work list contains a segment with five failing attempts
ends with `success = false`. -/
theorem poolMap_fail (a : String → Nat → Option String) (t : String × Nat)
    (hfail : ∀ k, k < 5 → a t.1 k = none) :
    ∀ (l : List (String × Nat)) (st : DlState), t ∈ l →
      (poolMap a st l).success = false := by
  intro l
  induction l with
  | nil => intro st h; cases h
  | cons hd rest ih =>
    intro st h
    cases List.mem_cons.mp h with
    | inl heq =>
      show (poolMap a (download_worker a st hd) rest).success = false
      apply poolMap_preserves_false
      rw [heq] at hfail
      exact download_worker_fail a st hd hfail
    | inr hmem => exact ih (download_worker a st hd) hmem

/-- The pool leaves a completion index untouched if every work item
either targets a different index or fails all its attempts. -/
theorem poolMap_completed (a : String → Nat → Option String) (j : Nat) :
    ∀ (l : List (String × Nat)) (st : DlState),
      (∀ t ∈ l, t.2 ≠ j ∨ (∀ k, k < 5 → a t.1 k = none)) →
      (poolMap a st l).completed j = st.completed j := by
  intro l
  induction l with
  | nil => intro st _; rfl
  | cons hd rest ih =>
    intro st h
    show (poolMap a (download_worker a st hd) rest).completed j = st.completed j
    rw [ih (download_worker a st hd) (fun t ht => h t (List.mem_cons_of_mem hd ht))]
    cases h hd (List.mem_cons_self hd rest) with
    | inl hne =>
      unfold download_worker
      cases tryFrom (a hd.1) 0 5 with
      | some b =>
        show (if j = hd.2 then some b else st.completed j) = st.completed j
        exact if_neg (Ne.symm hne)
      | none => rfl
    | inr hfail =>
      unfold download_worker
      rw [tryFrom_none (a hd.1) 5 0 (fun k _ h2 => hfail k (by omega))]

/-- A re-drive call entered with `success = false` never returns, for any
fuel: workers can only clear the flag, so the guard of line 102 fails at
every depth. -/
theorem download_segments_of_false (a : String → Nat → Option String) :
    ∀ (fuel : Nat) (st : DlState) (l : List (String × Nat)), st.success = false →
      download_segments a fuel st l = none := by
  intro fuel
  induction fuel with
  | zero => intro st l _; rfl
  | succ fuel ih =>
    intro st l h
    have h2 : (poolMap a st l).success = false := poolMap_preserves_false a l st h
    simp only [download_segments, h2, Bool.false_eq_true, if_false]
    exact ih _ _ (by simp)

/-! ## Lemmas about the reassembly consumer -/

/-- A consumer poll step changes neither the completion map nor the
segment count. -/
theorem consumeStep_frame (s : AppendState) :
    (consumeStep s).completed = s.completed ∧ (consumeStep s).count = s.count := by
  unfold consumeStep
  split
  · split
    · exact ⟨rfl, rfl⟩
    · exact ⟨rfl, rfl⟩
  · exact ⟨rfl, rfl⟩

/-- No event changes the segment count of a job. -/
theorem stepEvent_count (s : AppendState) (e : DlEvent) :
    (stepEvent s e).count = s.count := by
  cases e with
  | publish j b => rfl
  | consume => exact (consumeStep_frame s).2

/-- No interleaving changes the segment count of a job. -/
theorem runEvents_count : ∀ (es : List DlEvent) (s : AppendState),
    (runEvents es s).count = s.count := by
  intro es
  induction es with
  | nil => intro s; rfl
  | cons e rest ih =>
    intro s
    show (runEvents rest (stepEvent s e)).count = s.count
    rw [ih (stepEvent s e), stepEvent_count]

/-- One faithful event preserves the reassembly invariant. -/
theorem stepEvent_inv (body : Nat → String) (s : AppendState) (e : DlEvent)
    (hok : eventOk body e) (hinv : AppendInv body s) :
    AppendInv body (stepEvent s e) := by
  obtain ⟨hcomp, hout, hle⟩ := hinv
  cases e with
  | publish j b =>
    refine ⟨?_, hout, hle⟩
    intro i b2 hib
    have hif : (if i = j then some b else s.completed i) = some b2 := hib
    by_cases hij : i = j
    · rw [if_pos hij] at hif
      rw [← Option.some.inj hif, hij]
      exact hok
    · rw [if_neg hij] at hif
      exact hcomp i b2 hif
  | consume =>
    show AppendInv body (consumeStep s)
    unfold consumeStep
    split
    · rename_i hlt
      split
      · rename_i b hsc
        refine ⟨hcomp, ?_, ?_⟩
        · show s.output ++ [b] = (List.range (s.index + 1)).map body
          have hb : b = body s.index := hcomp s.index b hsc
          rw [hout, List.range_succ, List.map_append, hb]
          rfl
        · show s.index + 1 ≤ s.count
          omega
      · exact ⟨hcomp, hout, hle⟩
    · exact ⟨hcomp, hout, hle⟩

/-- Any faithful interleaving preserves the reassembly invariant. -/
theorem runEvents_inv (body : Nat → String) :
    ∀ (es : List DlEvent) (s : AppendState), (∀ e ∈ es, eventOk body e) →
      AppendInv body s → AppendInv body (runEvents es s) := by
  intro es
  induction es with
  | nil => intro s _ hinv; exact hinv
  | cons e rest ih =>
    intro s hok hinv
    exact ih (stepEvent s e) (fun e2 he => hok e2 (List.mem_cons_of_mem e he))
      (stepEvent_inv body s e (hok e (List.mem_cons_self e rest)) hinv)

/-- A consume step neither fills a completion slot nor moves the cursor
past an unfilled slot. -/
theorem consumeSteps_stuck (j : Nat) : ∀ (n : Nat) (s : AppendState),
    s.completed j = none → s.index ≤ j → (consumeSteps n s).index ≤ j := by
  intro n
  induction n with
  | zero => intro s _ hle; exact hle
  | succ n ih =>
    intro s h hle
    show (consumeSteps n (consumeStep s)).index ≤ j
    apply ih
    · rw [(consumeStep_frame s).1]
      exact h
    · show (consumeStep s).index ≤ j
      unfold consumeStep
      split
      · split
        · rename_i b hsc
          show s.index + 1 ≤ j
          have hne : s.index ≠ j := by
            intro he
            rw [he] at hsc
            rw [h] at hsc
            exact Option.noConfusion hsc
          omega
        · exact hle
      · exact hle

/-! ## Claims C1-C4, C10: the concurrent segment downloader -/

/-- C1: for every list of `N` segment references and every order in which
segment downloads complete — i.e. every interleaving of faithful worker
publish events with consumer poll steps — the bytes written to the output
sink are exactly the concatenation of the segment bodies in increasing
sequence-index order: at every point the output is
`body 0, ..., body (index - 1)`, the consumer never advances past `N`,
and a completed run (`index = N`) has emitted exactly
`body 0, ..., body (N - 1)`.  In particular index `i` is appended only
after indices `0 .. i-1`. -/
theorem c1_reassembly_in_order (body : Nat → String) (es : List DlEvent) (N : Nat)
    (hfaith : ∀ e ∈ es, eventOk body e) :
    (runEvents es (initAppend N)).output
        = (List.range (runEvents es (initAppend N)).index).map body
    ∧ (runEvents es (initAppend N)).index ≤ N
    ∧ ((runEvents es (initAppend N)).index = N →
        (runEvents es (initAppend N)).output = (List.range N).map body) := by
  have hinv : AppendInv body (runEvents es (initAppend N)) :=
    runEvents_inv body es (initAppend N) hfaith
      ⟨fun i b h => Option.noConfusion h, rfl, Nat.zero_le N⟩
  have hcnt : (runEvents es (initAppend N)).count = N :=
    runEvents_count es (initAppend N)
  obtain ⟨_, hout, hle⟩ := hinv
  rw [hcnt] at hle
  refine ⟨hout, hle, ?_⟩
  intro hidx
  rw [hout, hidx]

/-- Witness for C1: three segments published in the order 2, 0, 1,
interleaved with consumer polls; the output still comes out as bodies
0, 1, 2. -/
theorem c1_witness :
    (runEvents
        [DlEvent.publish 2 "b2", DlEvent.consume, DlEvent.publish 0 "b0",
         DlEvent.consume, DlEvent.consume, DlEvent.publish 1 "b1",
         DlEvent.consume, DlEvent.consume]
        (initAppend 3)).output
      = (List.range
          (runEvents
            [DlEvent.publish 2 "b2", DlEvent.consume, DlEvent.publish 0 "b0",
             DlEvent.consume, DlEvent.consume, DlEvent.publish 1 "b1",
             DlEvent.consume, DlEvent.consume]
            (initAppend 3)).index).map (fun i => "b" ++ Nat.repr i)
    ∧ (runEvents
        [DlEvent.publish 2 "b2", DlEvent.consume, DlEvent.publish 0 "b0",
         DlEvent.consume, DlEvent.consume, DlEvent.publish 1 "b1",
         DlEvent.consume, DlEvent.consume]
        (initAppend 3)).index ≤ 3
    ∧ ((runEvents
        [DlEvent.publish 2 "b2", DlEvent.consume, DlEvent.publish 0 "b0",
         DlEvent.consume, DlEvent.consume, DlEvent.publish 1 "b1",
         DlEvent.consume, DlEvent.consume]
        (initAppend 3)).index = 3 →
       (runEvents
        [DlEvent.publish 2 "b2", DlEvent.consume, DlEvent.publish 0 "b0",
         DlEvent.consume, DlEvent.consume, DlEvent.publish 1 "b1",
         DlEvent.consume, DlEvent.consume]
        (initAppend 3)).output = (List.range 3).map (fun i => "b" ++ Nat.repr i)) :=
  c1_reassembly_in_order (fun i => "b" ++ Nat.repr i)
    [DlEvent.publish 2 "b2", DlEvent.consume, DlEvent.publish 0 "b0",
     DlEvent.consume, DlEvent.consume, DlEvent.publish 1 "b1",
     DlEvent.consume, DlEvent.consume] 3 (by decide)

/-- C2 (evidence of the code defect): running the pool over a
single-segment job whose five attempts all fail leaves `failed_list`
empty — the worker only clears `success` (line 121) and never records the
exhausted segment, so the re-drive at lines 102-105 recurses on an empty
queue instead of re-queueing the segment as the claim states. -/
theorem c2_failed_segment_not_recorded :
    (poolMap (fun _ _ => none) initDl [("segment0.ts", 0)]).failed_list = []
    ∧ (poolMap (fun _ _ => none) initDl [("segment0.ts", 0)]).success = false :=
  ⟨rfl, rfl⟩

/-- C3: for every segment the worker consults at most the first five
attempts (oracles agreeing on attempts `0..4` give identical worker
results); if some attempt among the first five succeeds, the worker
publishes the body at its own index exactly once and leaves `success`,
`failed_list` and every other completion slot untouched; if all five
attempts fail, the worker stops retrying, clears the `success` flag,
publishes nothing — and with `success` false the promotion step performs
no rename. -/
theorem c3_worker_five_attempts (a : String → Nat → Option String)
    (st : DlState) (u : String) (i : Nat) (path : String) :
    (∀ a2 : String → Nat → Option String,
       (∀ k, k < 5 → a u k = a2 u k) →
       download_worker a st (u, i) = download_worker a2 st (u, i))
    ∧ (∀ k b, k < 5 → (∀ j, j < k → a u j = none) → a u k = some b →
        (download_worker a st (u, i)).success = st.success
        ∧ (download_worker a st (u, i)).failed_list = st.failed_list
        ∧ (download_worker a st (u, i)).completed i = some b
        ∧ ∀ j, j ≠ i → (download_worker a st (u, i)).completed j = st.completed j)
    ∧ ((∀ k, k < 5 → a u k = none) →
        (download_worker a st (u, i)).success = false
        ∧ (download_worker a st (u, i)).failed_list = st.failed_list
        ∧ (∀ j, (download_worker a st (u, i)).completed j = st.completed j)
        ∧ dl_finalize path false = none) := by
  refine ⟨?_, ?_, ?_⟩
  · intro a2 hagree
    unfold download_worker
    rw [tryFrom_agree (a u) (a2 u) 5 0 (fun j _ h2 => hagree j (by omega))]
  · intro k b hk hnone hsome
    have htf : tryFrom (a u) 0 5 = some b := by
      apply tryFrom_some (a u) 5 k 0 b hk
      · intro j _ h2
        exact hnone j (by omega)
      · simpa using hsome
    unfold download_worker
    rw [htf]
    refine ⟨rfl, rfl, ?_, ?_⟩
    · show (if i = i then some b else st.completed i) = some b
      rw [if_pos rfl]
    · intro j hj
      show (if j = i then some b else st.completed j) = st.completed j
      rw [if_neg hj]
  · intro hfail
    have htf : tryFrom (a u) 0 5 = none :=
      tryFrom_none (a u) 5 0 (fun j _ h2 => hfail j (by omega))
    unfold download_worker
    rw [htf]
    exact ⟨rfl, rfl, fun j => rfl, rfl⟩

/-- Witness for C3: a worker whose attempts fail four times and succeed
on the fifth publishes the body and keeps `success`; a worker whose five
attempts all fail clears `success` and publishes nothing. -/
theorem c3_witness :
    ((download_worker (fun _ k => if k = 4 then some "bod" else none) initDl
        ("seg.ts", 0)).success = initDl.success
      ∧ (download_worker (fun _ k => if k = 4 then some "bod" else none) initDl
        ("seg.ts", 0)).failed_list = initDl.failed_list
      ∧ (download_worker (fun _ k => if k = 4 then some "bod" else none) initDl
        ("seg.ts", 0)).completed 0 = some "bod"
      ∧ ∀ j, j ≠ 0 → (download_worker (fun _ k => if k = 4 then some "bod" else none)
        initDl ("seg.ts", 0)).completed j = initDl.completed j)
    ∧ ((download_worker (fun _ _ => none) initDl ("seg.ts", 0)).success = false
      ∧ (download_worker (fun _ _ => none) initDl ("seg.ts", 0)).failed_list
          = initDl.failed_list
      ∧ (∀ j, (download_worker (fun _ _ => none) initDl ("seg.ts", 0)).completed j
          = initDl.completed j)
      ∧ dl_finalize "movie" false = none) :=
  ⟨(c3_worker_five_attempts (fun _ k => if k = 4 then some "bod" else none)
      initDl "seg.ts" 0 "movie").2.1 4 "bod" (by decide) (by decide) (by decide),
   (c3_worker_five_attempts (fun _ _ => none) initDl "seg.ts" 0 "movie").2.2
      (fun k _ => rfl)⟩

/-- C4: whenever the download pass completes at all it completes with the
success flag set (the re-drive loop only returns behind the
`if st2.success` guard), and the promotion step renames
`<movie_path>.ts.tmp` to `<movie_path>.ts` exactly when the flag is true:
a failed job performs no rename, so no partial file appears under the
final name. -/
theorem c4_rename_iff_success (a : String → Nat → Option String) (fuel : Nat)
    (st : DlState) (ts_list : List (String × Nat)) (path : String) :
    Option.all (fun st2 => st2.success) (download_segments a fuel st ts_list) = true
    ∧ dl_finalize path true = some (path ++ ".ts.tmp", path ++ ".ts")
    ∧ dl_finalize path false = none := by
  refine ⟨?_, rfl, rfl⟩
  induction fuel generalizing st ts_list with
  | zero => rfl
  | succ fuel ih =>
    simp only [download_segments]
    cases h : (poolMap a st ts_list).success with
    | true => simp [h, Option.all]
    | false =>
      simp only [h, Bool.false_eq_true, if_false]
      exact ih _ _

/-- C10: a job containing a segment whose five attempts all fail never
terminates normally.  The pass over the work queue clears `success` but
leaves `failed_list` empty (the worker never records the failure), so the
re-drive recursion returns `none` at every fuel — it recurses forever on
an empty work queue with `success` permanently false — and, the failed
index never having been published, the reassembly consumer polls forever
without passing that index. -/
theorem c10_failed_segment_never_terminates (a : String → Nat → Option String)
    (ts_list : List (String × Nat)) (t : String × Nat)
    (hmem : t ∈ ts_list)
    (hfail : ∀ k, k < 5 → a t.1 k = none)
    (hdistinct : ∀ t2 ∈ ts_list, t2 ≠ t → t2.2 ≠ t.2) :
    (∀ fuel, download_segments a fuel initDl ts_list = none)
    ∧ (poolMap a initDl ts_list).failed_list = []
    ∧ (poolMap a initDl ts_list).success = false
    ∧ ∀ n, (consumeSteps n
        ⟨(poolMap a initDl ts_list).completed, 0, [], ts_list.length⟩).index ≤ t.2 := by
  have hsucc : (poolMap a initDl ts_list).success = false :=
    poolMap_fail a t hfail ts_list initDl hmem
  refine ⟨?_, ?_, hsucc, ?_⟩
  · intro fuel
    cases fuel with
    | zero => rfl
    | succ fuel =>
      simp only [download_segments, hsucc, Bool.false_eq_true, if_false]
      exact download_segments_of_false a fuel _ _ (by simp)
  · rw [poolMap_failed_list]
    rfl
  · intro n
    have hcomp : (poolMap a initDl ts_list).completed t.2 = none := by
      have hpres := poolMap_completed a t.2 ts_list initDl (by
        intro t2 ht2
        by_cases he : t2 = t
        · right
          rw [he]
          exact hfail
        · left
          exact hdistinct t2 ht2 he)
      exact hpres
    exact consumeSteps_stuck t.2 n _ hcomp (Nat.zero_le t.2)

/-- Witness for C10: a one-segment job whose attempts always fail;
no fuel makes the re-drive return, and the consumer's cursor stays at
index 0 forever. -/
theorem c10_witness :
    download_segments (fun _ _ => none) 4 initDl [("segA.ts", 0)] = none
    ∧ (consumeSteps 6
        ⟨(poolMap (fun _ _ => none) initDl [("segA.ts", 0)]).completed, 0, [],
          [("segA.ts", 0)].length⟩).index ≤ 0 :=
  have h := c10_failed_segment_never_terminates (fun _ _ => none) [("segA.ts", 0)]
    ("segA.ts", 0) (by decide) (fun _ _ => rfl) (by decide)
  ⟨h.1 4, h.2.2.2 6⟩

/-! ## Lemmas about the "best" selector -/

/-- Unfolding: a rendition whose media `NAME` is `Source` wins
immediately and stops the scan (lines 288-290). -/
theorem select_best_cons_source (e : M3u8Entry) (rest : List M3u8Entry)
    (cur : Option M3u8Entry) (best : Int)
    (hname : dictGet "NAME" e.media = some "Source") :
    select_best (e :: rest) cur best = Except.ok (some e) := by
  simp only [select_best, pyDictGet, hname, if_pos]

/-- Unfolding: a non-Source rendition with a present, parseable
`BANDWIDTH` updates the candidate exactly when its bandwidth is strictly
larger than the running maximum (lines 291-293). -/
theorem select_best_cons_step (e : M3u8Entry) (rest : List M3u8Entry)
    (cur : Option M3u8Entry) (best : Int) (nm0 : String) (b : Int) (bs : String)
    (hname : dictGet "NAME" e.media = some nm0) (hs : nm0 ≠ "Source")
    (hbs : dictGet "BANDWIDTH" e.format = some bs) (hbi : pyIntParse bs = some b) :
    select_best (e :: rest) cur best =
      if b > best then select_best rest (some e) b
      else select_best rest cur best := by
  simp only [select_best, pyDictGet, pyInt, hname, hbs, hbi, if_neg hs]

/-- Unfolding: a non-Source rendition without a `BANDWIDTH` key raises
`KeyError` at `int(format_settings['format']['BANDWIDTH'])` (line 291). -/
theorem select_best_cons_keyerr (e : M3u8Entry) (rest : List M3u8Entry)
    (cur : Option M3u8Entry) (best : Int) (nm0 : String)
    (hname : dictGet "NAME" e.media = some nm0) (hs : nm0 ≠ "Source")
    (hbs : dictGet "BANDWIDTH" e.format = none) :
    select_best (e :: rest) cur best = Except.error PyErr.keyError := by
  simp only [select_best, pyDictGet, hname, hbs, if_neg hs]

/-- When every remaining rendition is non-Source, parseable and has
bandwidth at most the running maximum, the scan keeps its current
candidate to the end. -/
theorem select_best_no_gain (nm : M3u8Entry → String) (bw : M3u8Entry → Int)
    (B : Int) :
    ∀ (l : List M3u8Entry) (cur : Option M3u8Entry),
      (∀ r ∈ l, dictGet "NAME" r.media = some (nm r)) →
      (∀ r ∈ l, nm r ≠ "Source") →
      (∀ r ∈ l, bwOf r = some (bw r)) →
      (∀ r ∈ l, bw r ≤ B) →
      select_best l cur B = Except.ok cur := by
  intro l
  induction l with
  | nil => intro cur _ _ _ _; rfl
  | cons e rest ih =>
    intro cur hname hns hbw hle
    have he : dictGet "NAME" e.media = some (nm e) := hname e (List.mem_cons_self e rest)
    have hbe : bwOf e = some (bw e) := hbw e (List.mem_cons_self e rest)
    obtain ⟨bs, hbs, hbi⟩ : ∃ bs, dictGet "BANDWIDTH" e.format = some bs
        ∧ pyIntParse bs = some (bw e) := by
      unfold bwOf at hbe
      cases hg : dictGet "BANDWIDTH" e.format with
      | none => rw [hg] at hbe; exact Option.noConfusion hbe
      | some bs => rw [hg] at hbe; exact ⟨bs, rfl, hbe⟩
    rw [select_best_cons_step e rest cur B (nm e) (bw e) bs he
      (hns e (List.mem_cons_self e rest)) hbs hbi]
    have hng : ¬ bw e > B := by
      have := hle e (List.mem_cons_self e rest)
      omega
    rw [if_neg hng]
    exact ih cur (fun r hr => hname r (List.mem_cons_of_mem e hr))
      (fun r hr => hns r (List.mem_cons_of_mem e hr))
      (fun r hr => hbw r (List.mem_cons_of_mem e hr))
      (fun r hr => hle r (List.mem_cons_of_mem e hr))

/-- Scanning past a prefix of non-Source, parseable renditions always
reaches the first `Source`-named rendition, which then wins regardless of
the accumulator. -/
theorem select_best_source_scan (nm : M3u8Entry → String) (bw : M3u8Entry → Int)
    (src : M3u8Entry) (rest : List M3u8Entry)
    (hsname : dictGet "NAME" src.media = some (nm src))
    (hsrc : nm src = "Source") :
    ∀ (pre : List M3u8Entry) (cur : Option M3u8Entry) (B : Int),
      (∀ r ∈ pre, dictGet "NAME" r.media = some (nm r)) →
      (∀ r ∈ pre, nm r ≠ "Source") →
      (∀ r ∈ pre, bwOf r = some (bw r)) →
      select_best (pre ++ src :: rest) cur B = Except.ok (some src) := by
  intro pre
  induction pre with
  | nil =>
    intro cur B _ _ _
    rw [List.nil_append]
    exact select_best_cons_source src rest cur B (hsrc ▸ hsname)
  | cons e pre2 ih =>
    intro cur B hname hns hbw
    have hbe : bwOf e = some (bw e) := hbw e (List.mem_cons_self e pre2)
    obtain ⟨bs, hbs, hbi⟩ : ∃ bs, dictGet "BANDWIDTH" e.format = some bs
        ∧ pyIntParse bs = some (bw e) := by
      unfold bwOf at hbe
      cases hg : dictGet "BANDWIDTH" e.format with
      | none => rw [hg] at hbe; exact Option.noConfusion hbe
      | some bs => rw [hg] at hbe; exact ⟨bs, rfl, hbe⟩
    rw [List.cons_append, select_best_cons_step e (pre2 ++ src :: rest) cur B
      (nm e) (bw e) bs (hname e (List.mem_cons_self e pre2))
      (hns e (List.mem_cons_self e pre2)) hbs hbi]
    by_cases hgt : bw e > B
    · rw [if_pos hgt]
      exact ih (some e) (bw e) (fun r hr => hname r (List.mem_cons_of_mem e hr))
        (fun r hr => hns r (List.mem_cons_of_mem e hr))
        (fun r hr => hbw r (List.mem_cons_of_mem e hr))
    · rw [if_neg hgt]
      exact ih cur B (fun r hr => hname r (List.mem_cons_of_mem e hr))
        (fun r hr => hns r (List.mem_cons_of_mem e hr))
        (fun r hr => hbw r (List.mem_cons_of_mem e hr))

/-- With no `Source`-named rendition anywhere, the scan selects the first
rendition attaining the strictly positive maximum bandwidth: past a prefix
of strictly smaller bandwidths the target rendition replaces the
candidate, and nothing afterwards replaces it. -/
theorem select_best_max_scan (nm : M3u8Entry → String) (bw : M3u8Entry → Int)
    (src : M3u8Entry) (rest : List M3u8Entry)
    (hsname : dictGet "NAME" src.media = some (nm src))
    (hsns : nm src ≠ "Source")
    (hsbw : bwOf src = some (bw src))
    (hrname : ∀ r ∈ rest, dictGet "NAME" r.media = some (nm r))
    (hrns : ∀ r ∈ rest, nm r ≠ "Source")
    (hrbw : ∀ r ∈ rest, bwOf r = some (bw r))
    (hrle : ∀ r ∈ rest, bw r ≤ bw src) :
    ∀ (pre : List M3u8Entry) (cur : Option M3u8Entry) (B : Int),
      (∀ r ∈ pre, dictGet "NAME" r.media = some (nm r)) →
      (∀ r ∈ pre, nm r ≠ "Source") →
      (∀ r ∈ pre, bwOf r = some (bw r)) →
      (∀ r ∈ pre, bw r < bw src) →
      B < bw src →
      select_best (pre ++ src :: rest) cur B = Except.ok (some src) := by
  intro pre
  induction pre with
  | nil =>
    intro cur B _ _ _ _ hB
    obtain ⟨bs, hbs, hbi⟩ : ∃ bs, dictGet "BANDWIDTH" src.format = some bs
        ∧ pyIntParse bs = some (bw src) := by
      unfold bwOf at hsbw
      cases hg : dictGet "BANDWIDTH" src.format with
      | none => rw [hg] at hsbw; exact Option.noConfusion hsbw
      | some bs => rw [hg] at hsbw; exact ⟨bs, rfl, hsbw⟩
    rw [List.nil_append, select_best_cons_step src rest cur B (nm src) (bw src) bs
      hsname hsns hbs hbi, if_pos (by omega)]
    exact select_best_no_gain nm bw (bw src) rest (some src) hrname hrns hrbw hrle
  | cons e pre2 ih =>
    intro cur B hname hns hbw hlt hB
    have hbe : bwOf e = some (bw e) := hbw e (List.mem_cons_self e pre2)
    obtain ⟨bs, hbs, hbi⟩ : ∃ bs, dictGet "BANDWIDTH" e.format = some bs
        ∧ pyIntParse bs = some (bw e) := by
      unfold bwOf at hbe
      cases hg : dictGet "BANDWIDTH" e.format with
      | none => rw [hg] at hbe; exact Option.noConfusion hbe
      | some bs => rw [hg] at hbe; exact ⟨bs, rfl, hbe⟩
    rw [List.cons_append, select_best_cons_step e (pre2 ++ src :: rest) cur B
      (nm e) (bw e) bs (hname e (List.mem_cons_self e pre2))
      (hns e (List.mem_cons_self e pre2)) hbs hbi]
    have hesrc : bw e < bw src := hlt e (List.mem_cons_self e pre2)
    by_cases hgt : bw e > B
    · rw [if_pos hgt]
      exact ih (some e) (bw e) (fun r hr => hname r (List.mem_cons_of_mem e hr))
        (fun r hr => hns r (List.mem_cons_of_mem e hr))
        (fun r hr => hbw r (List.mem_cons_of_mem e hr))
        (fun r hr => hlt r (List.mem_cons_of_mem e hr)) hesrc
    · rw [if_neg hgt]
      exact ih cur B (fun r hr => hname r (List.mem_cons_of_mem e hr))
        (fun r hr => hns r (List.mem_cons_of_mem e hr))
        (fun r hr => hbw r (List.mem_cons_of_mem e hr))
        (fun r hr => hlt r (List.mem_cons_of_mem e hr)) hB

/-- Scanning past a prefix of non-Source, parseable renditions reaches a
non-Source rendition lacking `BANDWIDTH` and raises `KeyError` there. -/
theorem select_best_keyerr_scan (nm : M3u8Entry → String) (bw : M3u8Entry → Int)
    (bad : M3u8Entry) (rest : List M3u8Entry)
    (hbname : dictGet "NAME" bad.media = some (nm bad))
    (hbns : nm bad ≠ "Source")
    (hbmissing : dictGet "BANDWIDTH" bad.format = none) :
    ∀ (pre : List M3u8Entry) (cur : Option M3u8Entry) (B : Int),
      (∀ r ∈ pre, dictGet "NAME" r.media = some (nm r)) →
      (∀ r ∈ pre, nm r ≠ "Source") →
      (∀ r ∈ pre, bwOf r = some (bw r)) →
      select_best (pre ++ bad :: rest) cur B = Except.error PyErr.keyError := by
  intro pre
  induction pre with
  | nil =>
    intro cur B _ _ _
    rw [List.nil_append]
    exact select_best_cons_keyerr bad rest cur B (nm bad) hbname hbns hbmissing
  | cons e pre2 ih =>
    intro cur B hname hns hbw
    have hbe : bwOf e = some (bw e) := hbw e (List.mem_cons_self e pre2)
    obtain ⟨bs, hbs, hbi⟩ : ∃ bs, dictGet "BANDWIDTH" e.format = some bs
        ∧ pyIntParse bs = some (bw e) := by
      unfold bwOf at hbe
      cases hg : dictGet "BANDWIDTH" e.format with
      | none => rw [hg] at hbe; exact Option.noConfusion hbe
      | some bs => rw [hg] at hbe; exact ⟨bs, rfl, hbe⟩
    rw [List.cons_append, select_best_cons_step e (pre2 ++ bad :: rest) cur B
      (nm e) (bw e) bs (hname e (List.mem_cons_self e pre2))
      (hns e (List.mem_cons_self e pre2)) hbs hbi]
    by_cases hgt : bw e > B
    · rw [if_pos hgt]
      exact ih (some e) (bw e) (fun r hr => hname r (List.mem_cons_of_mem e hr))
        (fun r hr => hns r (List.mem_cons_of_mem e hr))
        (fun r hr => hbw r (List.mem_cons_of_mem e hr))
    · rw [if_neg hgt]
      exact ih cur B (fun r hr => hname r (List.mem_cons_of_mem e hr))
        (fun r hr => hns r (List.mem_cons_of_mem e hr))
        (fun r hr => hbw r (List.mem_cons_of_mem e hr))

/-! ## Claims C5 and C9: the "best" format selector -/

/-- C5 (amended): scanning in list order, the first rendition whose media
`NAME` is exactly `Source` is chosen unconditionally — the scan stops
there, whatever the bandwidths elsewhere; if no rendition is named
`Source`, the chosen rendition is the first one attaining the maximum
numeric `BANDWIDTH` value, provided that maximum is strictly positive
(the loop's running maximum starts at 0, so a list whose bandwidths are
all at most 0 selects nothing — the amendment forced by
`c5_counterexample`).  Renditions scanned before the winner must carry a
present, parseable `BANDWIDTH` (see C9). -/
theorem c5_best_selection (nm : M3u8Entry → String) (bw : M3u8Entry → Int)
    (pre rest : List M3u8Entry) (src : M3u8Entry)
    (hnm : ∀ r ∈ pre ++ src :: rest, dictGet "NAME" r.media = some (nm r))
    (hbw : ∀ r ∈ pre ++ src :: rest, nm r ≠ "Source" → bwOf r = some (bw r)) :
    (nm src = "Source" ∧ (∀ r ∈ pre, nm r ≠ "Source") →
      selectBestFormat (pre ++ src :: rest) = Except.ok (some src))
    ∧ ((∀ r ∈ pre ++ src :: rest, nm r ≠ "Source")
        ∧ (∀ r ∈ pre, bw r < bw src)
        ∧ (∀ r ∈ pre ++ src :: rest, bw r ≤ bw src)
        ∧ 0 < bw src →
      selectBestFormat (pre ++ src :: rest) = Except.ok (some src)) := by
  have hsrcmem : src ∈ pre ++ src :: rest :=
    List.mem_append_right pre (List.mem_cons_self src rest)
  constructor
  · rintro ⟨hsrc, hpns⟩
    exact select_best_source_scan nm bw src rest (hnm src hsrcmem) hsrc pre none 0
      (fun r hr => hnm r (List.mem_append_left (src :: rest) hr))
      hpns
      (fun r hr => hbw r (List.mem_append_left (src :: rest) hr) (hpns r hr))
  · rintro ⟨hall, hlt, hle, hpos⟩
    apply select_best_max_scan nm bw src rest (hnm src hsrcmem) (hall src hsrcmem)
      (hbw src hsrcmem (hall src hsrcmem))
    · intro r hr
      exact hnm r (List.mem_append_right pre (List.mem_cons_of_mem src hr))
    · intro r hr
      exact hall r (List.mem_append_right pre (List.mem_cons_of_mem src hr))
    · intro r hr
      have hm : r ∈ pre ++ src :: rest :=
        List.mem_append_right pre (List.mem_cons_of_mem src hr)
      exact hbw r hm (hall r hm)
    · intro r hr
      exact hle r (List.mem_append_right pre (List.mem_cons_of_mem src hr))
    · exact fun r hr => hnm r (List.mem_append_left (src :: rest) hr)
    · exact fun r hr => hall r (List.mem_append_left (src :: rest) hr)
    · intro r hr
      have hm : r ∈ pre ++ src :: rest := List.mem_append_left (src :: rest) hr
      exact hbw r hm (hall r hm)
    · exact hlt
    · exact hpos

/-- Counterexample to C5 as stated: a list with a single non-Source
rendition of `BANDWIDTH` 0 selects nothing (`downloading_format` stays
`None` because `int('0') > best_bitrate` fails against the initial
`best_bitrate = 0`), while the claim demands that the first rendition
attaining the maximum be chosen. -/
theorem c5_counterexample :
    selectBestFormat [⟨"a.m3u8", [("NAME", "360p"), ("GROUP-ID", ""), ("TYPE", "")],
        [("BANDWIDTH", "0")]⟩] = Except.ok none
    ∧ (Except.ok none : Except PyErr (Option M3u8Entry)) ≠ Except.ok (some (⟨"a.m3u8",
        [("NAME", "360p"), ("GROUP-ID", ""), ("TYPE", "")],
        [("BANDWIDTH", "0")]⟩ : M3u8Entry)) := by
  constructor
  · rfl
  · intro h
    exact Option.noConfusion (Except.ok.inj h)

/-- Witness for C5: the spec's own example — renditions with bandwidths
500000 and 1200000 followed by a rendition named `Source` with bandwidth
only 300000 — selects the `Source` rendition; and with the `Source`
rendition removed, the first maximal-bandwidth rendition wins. -/
theorem c5_witness :
    selectBestFormat
      [⟨"l1.m3u8", [("NAME", "540p"), ("GROUP-ID", ""), ("TYPE", "")],
          [("BANDWIDTH", "500000")]⟩,
       ⟨"l2.m3u8", [("NAME", "720p"), ("GROUP-ID", ""), ("TYPE", "")],
          [("BANDWIDTH", "1200000")]⟩,
       ⟨"l3.m3u8", [("NAME", "Source"), ("GROUP-ID", ""), ("TYPE", "")],
          [("BANDWIDTH", "300000")]⟩]
      = Except.ok (some ⟨"l3.m3u8", [("NAME", "Source"), ("GROUP-ID", ""), ("TYPE", "")],
          [("BANDWIDTH", "300000")]⟩)
    ∧ selectBestFormat
      [⟨"l1.m3u8", [("NAME", "540p"), ("GROUP-ID", ""), ("TYPE", "")],
          [("BANDWIDTH", "500000")]⟩,
       ⟨"l2.m3u8", [("NAME", "720p"), ("GROUP-ID", ""), ("TYPE", "")],
          [("BANDWIDTH", "1200000")]⟩]
      = Except.ok (some ⟨"l2.m3u8", [("NAME", "720p"), ("GROUP-ID", ""), ("TYPE", "")],
          [("BANDWIDTH", "1200000")]⟩) :=
  ⟨(c5_best_selection (fun r => (dictGet "NAME" r.media).getD "")
      (fun r => (bwOf r).getD 0)
      [⟨"l1.m3u8", [("NAME", "540p"), ("GROUP-ID", ""), ("TYPE", "")],
          [("BANDWIDTH", "500000")]⟩,
       ⟨"l2.m3u8", [("NAME", "720p"), ("GROUP-ID", ""), ("TYPE", "")],
          [("BANDWIDTH", "1200000")]⟩] []
      ⟨"l3.m3u8", [("NAME", "Source"), ("GROUP-ID", ""), ("TYPE", "")],
          [("BANDWIDTH", "300000")]⟩
      (by decide) (by decide)).1 (by decide),
   (c5_best_selection (fun r => (dictGet "NAME" r.media).getD "")
      (fun r => (bwOf r).getD 0)
      [⟨"l1.m3u8", [("NAME", "540p"), ("GROUP-ID", ""), ("TYPE", "")],
          [("BANDWIDTH", "500000")]⟩] []
      ⟨"l2.m3u8", [("NAME", "720p"), ("GROUP-ID", ""), ("TYPE", "")],
          [("BANDWIDTH", "1200000")]⟩
      (by decide) (by decide)).2 (by decide)⟩

/-- C9 (amended): `BANDWIDTH` is an unstated precondition of `best`
selection, but the `KeyError` fires only when the defective descriptor is
actually reached by the scan: if a descriptor whose media `NAME` is not
`Source` lacks the `BANDWIDTH` key and every rendition before it is
non-Source with a present, parseable `BANDWIDTH` (in particular, when no
`Source`-named rendition precedes it), evaluating the selector raises
`KeyError` at `int(format_settings['format']['BANDWIDTH'])` instead of
skipping the rendition or reporting `no format found`.  A `Source`-named
rendition earlier in the list short-circuits the scan and no error is
raised (see `c9_counterexample`). -/
theorem c9_missing_bandwidth_keyerror (nm : M3u8Entry → String)
    (bw : M3u8Entry → Int) (pre rest : List M3u8Entry) (bad : M3u8Entry)
    (hpname : ∀ r ∈ pre, dictGet "NAME" r.media = some (nm r))
    (hpns : ∀ r ∈ pre, nm r ≠ "Source")
    (hpbw : ∀ r ∈ pre, bwOf r = some (bw r))
    (hbname : dictGet "NAME" bad.media = some (nm bad))
    (hbns : nm bad ≠ "Source")
    (hbmissing : dictGet "BANDWIDTH" bad.format = none) :
    selectBestFormat (pre ++ bad :: rest) = Except.error PyErr.keyError :=
  select_best_keyerr_scan nm bw bad rest hbname hbns hbmissing pre none 0
    hpname hpns hpbw

/-- Counterexample to C9 as stated: a rendition list that contains a
non-Source descriptor lacking `BANDWIDTH` but whose scan never reaches it
— a `Source`-named rendition comes first — evaluates without any
`KeyError`, contradicting the claim's universal "evaluating the selector
raises a KeyError". -/
theorem c9_counterexample :
    selectBestFormat
      [⟨"s.m3u8", [("NAME", "Source"), ("GROUP-ID", ""), ("TYPE", "")], []⟩,
       ⟨"b.m3u8", [("NAME", "720p"), ("GROUP-ID", ""), ("TYPE", "")],
          [("RESOLUTION", "1280x720")]⟩]
      = Except.ok (some ⟨"s.m3u8",
          [("NAME", "Source"), ("GROUP-ID", ""), ("TYPE", "")], []⟩)
    ∧ Except.ok (some (⟨"s.m3u8",
          [("NAME", "Source"), ("GROUP-ID", ""), ("TYPE", "")], []⟩ : M3u8Entry))
        ≠ (Except.error PyErr.keyError : Except PyErr (Option M3u8Entry))
    ∧ dictGet "NAME" (⟨"b.m3u8", [("NAME", "720p"), ("GROUP-ID", ""), ("TYPE", "")],
          [("RESOLUTION", "1280x720")]⟩ : M3u8Entry).media = some "720p"
    ∧ ("720p" : String) ≠ "Source"
    ∧ dictGet "BANDWIDTH" (⟨"b.m3u8",
          [("NAME", "720p"), ("GROUP-ID", ""), ("TYPE", "")],
          [("RESOLUTION", "1280x720")]⟩ : M3u8Entry).format = none := by
  refine ⟨rfl, ?_, rfl, by decide, rfl⟩
  intro h
  exact Except.noConfusion h

/-- Witness for C9 (amended): a parseable non-Source rendition followed
by a non-Source rendition lacking `BANDWIDTH` makes the selector raise
`KeyError`. -/
theorem c9_witness :
    selectBestFormat
      [⟨"l1.m3u8", [("NAME", "540p"), ("GROUP-ID", ""), ("TYPE", "")],
          [("BANDWIDTH", "500000")]⟩,
       ⟨"b.m3u8", [("NAME", "720p"), ("GROUP-ID", ""), ("TYPE", "")],
          [("RESOLUTION", "1280x720")]⟩]
      = Except.error PyErr.keyError :=
  c9_missing_bandwidth_keyerror (fun r => (dictGet "NAME" r.media).getD "")
    (fun r => (bwOf r).getD 0)
    [⟨"l1.m3u8", [("NAME", "540p"), ("GROUP-ID", ""), ("TYPE", "")],
        [("BANDWIDTH", "500000")]⟩] []
    ⟨"b.m3u8", [("NAME", "720p"), ("GROUP-ID", ""), ("TYPE", "")],
        [("RESOLUTION", "1280x720")]⟩
    (by decide) (by decide) (by decide) (by decide) (by decide) (by decide)

/-! ## Lemmas about the playlist URL deriver -/

/-- Setting a key makes lookups of that key return the new value. -/
theorem dictGet_dictSet_self (k v : String) :
    ∀ m : List (String × String), dictGet k (dictSet m k v) = some v := by
  intro m
  induction m with
  | nil =>
    show dictGet k [(k, v)] = some v
    unfold dictGet
    rw [if_pos rfl]
  | cons kv rest ih =>
    obtain ⟨k0, v0⟩ := kv
    show dictGet k (if k0 = k then (k0, v) :: rest else (k0, v0) :: dictSet rest k v)
      = some v
    by_cases h : k0 = k
    · rw [if_pos h]
      unfold dictGet
      rw [if_pos h]
    · rw [if_neg h]
      unfold dictGet
      rw [if_neg h]
      exact ih

/-- Setting a key leaves lookups of other keys unchanged. -/
theorem dictGet_dictSet_ne (k k2 v : String) (hne : k ≠ k2) :
    ∀ m : List (String × String), dictGet k2 (dictSet m k v) = dictGet k2 m := by
  intro m
  induction m with
  | nil =>
    show dictGet k2 [(k, v)] = none
    unfold dictGet
    rw [if_neg hne]
    rfl
  | cons kv rest ih =>
    obtain ⟨k0, v0⟩ := kv
    show dictGet k2 (if k0 = k then (k0, v) :: rest else (k0, v0) :: dictSet rest k v)
      = dictGet k2 ((k0, v0) :: rest)
    by_cases h : k0 = k
    · rw [if_pos h]
      show (if k0 = k2 then some v else dictGet k2 rest)
        = (if k0 = k2 then some v0 else dictGet k2 rest)
      rw [if_neg (h ▸ hne : k0 ≠ k2), if_neg (h ▸ hne : k0 ≠ k2)]
    · rw [if_neg h]
      show (if k0 = k2 then some v0 else dictGet k2 (dictSet rest k v))
        = (if k0 = k2 then some v0 else dictGet k2 rest)
      by_cases h2 : k0 = k2
      · rw [if_pos h2, if_pos h2]
      · rw [if_neg h2, if_neg h2]
        exact ih

/-- Unfolding: an absent key is filled. -/
theorem fill_one_absent (base : String) (m : List (String × String))
    (kv : String × String) (h : dictGet kv.1 m = none) :
    fill_one base m kv = dictSet m kv.1 (urljoin base (kv.2 ++ ".m3u8")) := by
  unfold fill_one
  rw [h]

/-- Unfolding: a key with an empty (falsy) value is filled. -/
theorem fill_one_empty (base : String) (m : List (String × String))
    (kv : String × String) (h : dictGet kv.1 m = some "") :
    fill_one base m kv = dictSet m kv.1 (urljoin base (kv.2 ++ ".m3u8")) := by
  unfold fill_one
  rw [h]
  show (if ("" : String) = "" then dictSet m kv.1 (urljoin base (kv.2 ++ ".m3u8")) else m)
    = dictSet m kv.1 (urljoin base (kv.2 ++ ".m3u8"))
  rw [if_pos rfl]

/-- Unfolding: a key with a non-empty value is kept as is. -/
theorem fill_one_kept (base : String) (m : List (String × String))
    (kv : String × String) (v : String) (h : dictGet kv.1 m = some v)
    (hv : v ≠ "") : fill_one base m kv = m := by
  unfold fill_one
  rw [h]
  show (if v = "" then dictSet m kv.1 (urljoin base (kv.2 ++ ".m3u8")) else m) = m
  rw [if_neg hv]

/-- Filling one playlist entry leaves every other key unchanged. -/
theorem dictGet_fill_one_ne (base : String) (m : List (String × String))
    (kv : String × String) (k : String) (hne : kv.1 ≠ k) :
    dictGet k (fill_one base m kv) = dictGet k m := by
  cases h : dictGet kv.1 m with
  | none =>
    rw [fill_one_absent base m kv h]
    exact dictGet_dictSet_ne kv.1 k _ hne m
  | some v =>
    by_cases hv : v = ""
    · subst hv
      rw [fill_one_empty base m kv h]
      exact dictGet_dictSet_ne kv.1 k _ hne m
    · rw [fill_one_kept base m kv v h hv]

/-- Part (a) of the fill loop's frame property: a key that already has a
non-empty value is never overwritten. -/
theorem derive_fill_keeps_nonempty (base : String) (k v : String)
    (hv : v ≠ "") :
    ∀ (plMap : List (String × String)) (media : List (String × String)),
      dictGet k media = some v →
      dictGet k (derive_fill plMap base media) = some v := by
  intro plMap
  induction plMap with
  | nil => intro media h; exact h
  | cons kv rest ih =>
    intro media h
    show dictGet k (derive_fill rest base (fill_one base media kv)) = some v
    apply ih
    by_cases hk : kv.1 = k
    · rw [fill_one_kept base media kv v (by rw [hk]; exact h) hv]
      exact h
    · rw [dictGet_fill_one_ne base media kv k hk]
      exact h

/-- Part (b) of the fill loop's frame property: keys outside the chosen
map's table are unchanged. -/
theorem derive_fill_outside (base : String) (k : String) :
    ∀ (plMap : List (String × String)) (media : List (String × String)),
      (∀ kv ∈ plMap, kv.1 ≠ k) →
      dictGet k (derive_fill plMap base media) = dictGet k media := by
  intro plMap
  induction plMap with
  | nil => intro media _; rfl
  | cons kv rest ih =>
    intro media h
    show dictGet k (derive_fill rest base (fill_one base media kv)) = dictGet k media
    rw [ih (fill_one base media kv) (fun kv2 h2 => h kv2 (List.mem_cons_of_mem kv h2))]
    exact dictGet_fill_one_ne base media kv k (h kv (List.mem_cons_self kv rest))

/-- Part (c) of the fill loop: a key of the table that is absent or empty
in the media dict is assigned the joined URL of its template. -/
theorem derive_fill_fills (base : String) (k : String) :
    ∀ (plMap : List (String × String)) (media : List (String × String)),
      (plMap.map Prod.fst).Nodup →
      ∀ tpl, dictGet k plMap = some tpl →
      (dictGet k media = none ∨ dictGet k media = some "") →
      dictGet k (derive_fill plMap base media)
        = some (urljoin base (tpl ++ ".m3u8")) := by
  intro plMap
  induction plMap with
  | nil => intro media _ tpl h _; exact Option.noConfusion h
  | cons kv rest ih =>
    intro media hnd tpl hget hfalsy
    obtain ⟨k0, t0⟩ := kv
    have hnd2 := List.nodup_cons.mp hnd
    show dictGet k (derive_fill rest base (fill_one base media (k0, t0)))
      = some (urljoin base (tpl ++ ".m3u8"))
    by_cases hk : k0 = k
    · have htpl : tpl = t0 := by
        have hhd : dictGet k ((k0, t0) :: rest) = some t0 := by
          unfold dictGet
          rw [if_pos hk]
        rw [hhd] at hget
        exact (Option.some.inj hget).symm
      have hk2 : (k0, t0).1 = k := hk
      have hset : fill_one base media (k0, t0)
          = dictSet media k0 (urljoin base (t0 ++ ".m3u8")) := by
        cases hfalsy with
        | inl hnone =>
          exact fill_one_absent base media (k0, t0) (by rw [hk2]; exact hnone)
        | inr hempty =>
          exact fill_one_empty base media (k0, t0) (by rw [hk2]; exact hempty)
      have houtside : ∀ kv2 ∈ rest, kv2.1 ≠ k := by
        intro kv2 h2 hcontra
        exact hnd2.1 (by
          rw [show (k0, t0).1 = kv2.1 from hk.trans hcontra.symm]
          exact List.mem_map_of_mem Prod.fst h2)
      rw [hset, derive_fill_outside base k rest _ houtside, htpl, ← hk]
      exact dictGet_dictSet_self k0 _ media
    · have hget2 : dictGet k rest = some tpl := by
        have hhd : dictGet k ((k0, t0) :: rest)
            = if k0 = k then some t0 else dictGet k rest := rfl
        rw [hhd, if_neg hk] at hget
        exact hget
      have hfalsy2 : dictGet k (fill_one base media (k0, t0)) = none
          ∨ dictGet k (fill_one base media (k0, t0)) = some "" := by
        rw [dictGet_fill_one_ne base media (k0, t0) k hk]
        exact hfalsy
      exact ih (fill_one base media (k0, t0)) hnd2.2 tpl hget2 hfalsy2

/-! ## Claim C8: the playlist URL deriver's fill loop -/

/-- C8: for any fill table (`NORMAL_MAP`, `PLAYLIST_MAP` or `GAME_MAP`,
all of which have distinct keys) run over an input media mapping, (a)
every key that already has a non-empty value is left unchanged, (b) every
key outside the table is left unchanged, and (c) every table key that is
absent or empty in the input is assigned the base URL joined with the
table's path template plus `.m3u8`. -/
theorem c8_fill_frame (plMap : List (String × String)) (base : String)
    (media : List (String × String)) (k : String) :
    (∀ v, dictGet k media = some v → v ≠ "" →
       dictGet k (derive_fill plMap base media) = some v)
    ∧ ((∀ kv ∈ plMap, kv.1 ≠ k) →
       dictGet k (derive_fill plMap base media) = dictGet k media)
    ∧ ((plMap.map Prod.fst).Nodup →
       ∀ tpl, dictGet k plMap = some tpl →
       (dictGet k media = none ∨ dictGet k media = some "") →
       dictGet k (derive_fill plMap base media)
         = some (urljoin base (tpl ++ ".m3u8"))) :=
  ⟨fun v hget hv => derive_fill_keeps_nonempty base k v hv plMap media hget,
   fun hout => derive_fill_outside base k plMap media hout,
   fun hnd tpl hget hfalsy => derive_fill_fills base k plMap media hnd tpl hget hfalsy⟩

/-- Witness for C8, on `GAME_MAP` with base
`https://h/a/playlist.m3u8` and a media dict where `url_high` is
populated and `url_source` is empty: the populated key is preserved, a
key outside the table is untouched, and the empty key is derived. -/
theorem c8_witness :
    dictGet "url_high" (derive_fill GAME_MAP "https://h/a/playlist.m3u8"
        [("url_source", ""), ("url_high", "https://x/high.m3u8")])
      = some "https://x/high.m3u8"
    ∧ dictGet "url_public" (derive_fill GAME_MAP "https://h/a/playlist.m3u8"
        [("url_source", ""), ("url_high", "https://x/high.m3u8")])
      = dictGet "url_public" [("url_source", ""), ("url_high", "https://x/high.m3u8")]
    ∧ dictGet "url_source" (derive_fill GAME_MAP "https://h/a/playlist.m3u8"
        [("url_source", ""), ("url_high", "https://x/high.m3u8")])
      = some (urljoin "https://h/a/playlist.m3u8" ("source" ++ ".m3u8")) :=
  ⟨(c8_fill_frame GAME_MAP "https://h/a/playlist.m3u8"
      [("url_source", ""), ("url_high", "https://x/high.m3u8")] "url_high").1
      "https://x/high.m3u8" (by decide) (by decide),
   (c8_fill_frame GAME_MAP "https://h/a/playlist.m3u8"
      [("url_source", ""), ("url_high", "https://x/high.m3u8")] "url_public").2.1
      (by decide),
   (c8_fill_frame GAME_MAP "https://h/a/playlist.m3u8"
      [("url_source", ""), ("url_high", "https://x/high.m3u8")] "url_source").2.2
      (by decide) "source" (by decide) (Or.inr (by decide))⟩

/-! ## Lemmas about the attribute parser -/

/-- Every element of a `takeWhile` run satisfies the predicate. -/
theorem mem_takeWhile_pred (p : Char → Bool) :
    ∀ (l : List Char) (c : Char), c ∈ l.takeWhile p → p c = true := by
  intro l
  induction l with
  | nil => intro c h; exact absurd h (List.not_mem_nil c)
  | cons a rest ih =>
    intro c h
    cases hpa : p a with
    | true =>
      rw [List.takeWhile_cons_of_pos hpa] at h
      cases List.mem_cons.mp h with
      | inl he => rw [he]; exact hpa
      | inr h2 => exact ih c h2
    | false =>
      rw [List.takeWhile_cons_of_neg (by simp [hpa])] at h
      exact absurd h (List.not_mem_nil c)

/-- Stripping a quoted raw value (opening quote, non-quote run, closing
quote) leaves no quote character behind. -/
theorem stripQuotes_quoted (inner : List Char)
    (hq : ∀ c ∈ inner, (c != dq) = true) :
    dq ∉ stripQuotesChars (dq :: (inner ++ [dq])) := by
  show dq ∉ (if dq = dq then (List.drop 1 (dq :: (inner ++ [dq]))).dropLast
    else dq :: (inner ++ [dq]))
  rw [if_pos rfl]
  show dq ∉ (inner ++ [dq]).dropLast
  rw [List.dropLast_concat]
  intro hmem
  have hc := hq dq hmem
  simp at hc

/-- An unquoted raw value (a run free of quotes and commas) is left as is
by the stripping step and contains no quote character. -/
theorem stripQuotes_unquoted (run : List Char)
    (hrun : ∀ c ∈ run, (c != dq && c != ',') = true) :
    dq ∉ stripQuotesChars run := by
  cases run with
  | nil => simp [stripQuotesChars]
  | cons c cs =>
    have hc : (c != dq && c != ',') = true := hrun c (List.mem_cons_self c cs)
    have hcne : ¬ c = dq := by
      intro he
      subst he
      simp at hc
    show dq ∉ (if c = dq then (List.drop 1 (c :: cs)).dropLast else c :: cs)
    rw [if_neg hcne]
    intro hmem
    have hd := hrun dq hmem
    simp at hd

/-- Every value matched by the regex's value group, once stripped,
contains no double-quote character. -/
theorem matchValue_noquote (l : List Char) (v r : List Char)
    (h : matchValue l = some (v, r)) : dq ∉ stripQuotesChars v := by
  cases l with
  | nil => exact absurd h (by simp [matchValue])
  | cons c1 rest2 =>
    simp only [matchValue] at h
    split at h
    · -- quoted branch
      split at h
      · exact Option.noConfusion h
      · rename_i hinner
        split at h
        · rename_i c2 rest3
          split at h
          · split at h
            · -- terminator: end of input
              have hv : dq :: (rest2.takeWhile (fun ch => ch != dq) ++ [dq]) = v :=
                congrArg Prod.fst (Option.some.inj h)
              rw [← hv]
              exact stripQuotes_quoted _
                (fun c hc => mem_takeWhile_pred (fun ch => ch != dq) rest2 c hc)
            · -- terminator: comma
              split at h
              · have hv : dq :: (rest2.takeWhile (fun ch => ch != dq) ++ [dq]) = v :=
                  congrArg Prod.fst (Option.some.inj h)
                rw [← hv]
                exact stripQuotes_quoted _
                  (fun c hc => mem_takeWhile_pred (fun ch => ch != dq) rest2 c hc)
              · exact Option.noConfusion h
          · exact Option.noConfusion h
        · exact Option.noConfusion h
    · -- unquoted branch
      split at h
      · exact Option.noConfusion h
      · rename_i hrun
        split at h
        · have hv : (c1 :: rest2).takeWhile (fun ch => ch != dq && ch != ',') = v :=
            congrArg Prod.fst (Option.some.inj h)
          rw [← hv]
          exact stripQuotes_unquoted _
            (fun c hc =>
              mem_takeWhile_pred (fun ch => ch != dq && ch != ',') (c1 :: rest2) c hc)
        · rename_i c3 rest4
          split at h
          · have hv : (c1 :: rest2).takeWhile (fun ch => ch != dq && ch != ',') = v :=
              congrArg Prod.fst (Option.some.inj h)
            rw [← hv]
            exact stripQuotes_unquoted _
              (fun c hc =>
                mem_takeWhile_pred (fun ch => ch != dq && ch != ',') (c1 :: rest2) c hc)
          · exact Option.noConfusion h

/-- Every pair produced by the scan loop comes from a successful match of
the attribute pattern at some position. -/
theorem findAllAux_mem :
    ∀ (fuel : Nat) (s : List Char) (kv : String × List Char),
      kv ∈ findAllAux fuel s →
      ∃ s2 r, matchAt s2 = some (kv.1, kv.2, r) := by
  intro fuel
  induction fuel with
  | zero => intro s kv h; exact absurd h (List.not_mem_nil kv)
  | succ fuel ih =>
    intro s kv h
    cases s with
    | nil => exact absurd h (List.not_mem_nil kv)
    | cons c rest =>
      revert h
      show kv ∈ (match matchAt (c :: rest) with
        | some (k, v, rest2) => (k, v) :: findAllAux fuel rest2
        | none => findAllAux fuel rest) → _
      cases hm : matchAt (c :: rest) with
      | some p =>
        obtain ⟨k, v, rest2⟩ := p
        intro h
        cases List.mem_cons.mp h with
        | inl he =>
          refine ⟨c :: rest, rest2, ?_⟩
          rw [hm, he]
        | inr h2 => exact ih rest2 kv h2
      | none =>
        intro h
        exact ih rest kv h

/-- A successful match of the whole attribute pattern contains a
successful match of the value pattern. -/
theorem matchAt_val (s : List Char) (k : String) (v r : List Char)
    (h : matchAt s = some (k, v, r)) : ∃ l2, matchValue l2 = some (v, r) := by
  simp only [matchAt] at h
  split at h
  · exact Option.noConfusion h
  · split at h
    · split at h
      · rw [Option.map_eq_some'] at h
        obtain ⟨p, hp, he⟩ := h
        obtain ⟨v2, r2⟩ := p
        have hv : v2 = v := congrArg (fun q => q.2.1) he
        have hr : r2 = r := congrArg (fun q => q.2.2) he
        subst hv
        subst hr
        exact ⟨_, hp⟩
      · exact Option.noConfusion h
    · exact Option.noConfusion h

/-- A pair found in a dict after a `d[k] = v` update was either already
present or carries the written value. -/
theorem dictSet_mem (k0 v0 : String) :
    ∀ (m : List (String × String)) (kv : String × String),
      kv ∈ dictSet m k0 v0 → kv ∈ m ∨ kv.2 = v0 := by
  intro m
  induction m with
  | nil =>
    intro kv h
    rw [List.mem_singleton.mp h]
    exact Or.inr rfl
  | cons p rest ih =>
    obtain ⟨k1, v1⟩ := p
    intro kv h
    revert h
    show kv ∈ (if k1 = k0 then (k1, v0) :: rest else (k1, v1) :: dictSet rest k0 v0) → _
    by_cases hk : k1 = k0
    · rw [if_pos hk]
      intro h
      cases List.mem_cons.mp h with
      | inl he =>
        rw [he]
        exact Or.inr rfl
      | inr h2 => exact Or.inl (List.mem_cons_of_mem (k1, v1) h2)
    · rw [if_neg hk]
      intro h
      cases List.mem_cons.mp h with
      | inl he =>
        rw [he]
        exact Or.inl (List.mem_cons_self (k1, v1) rest)
      | inr h2 =>
        cases ih kv h2 with
        | inl h3 => exact Or.inl (List.mem_cons_of_mem (k1, v1) h3)
        | inr h3 => exact Or.inr h3

/-- Every value in the dict built by folding `dictSet` over the matches
is the stripped form of some matched raw value. -/
theorem parse_fold_mem (f : List Char → String) :
    ∀ (l : List (String × List Char)) (init : List (String × String))
      (kv : String × String),
      kv ∈ l.foldl (fun info p => dictSet info p.1 (f p.2)) init →
      kv ∈ init ∨ ∃ p ∈ l, kv.2 = f p.2 := by
  intro l
  induction l with
  | nil => intro init kv h; exact Or.inl h
  | cons p rest ih =>
    intro init kv h
    cases ih (dictSet init p.1 (f p.2)) kv h with
    | inl h2 =>
      cases dictSet_mem p.1 (f p.2) init kv h2 with
      | inl h3 => exact Or.inl h3
      | inr h3 => exact Or.inr ⟨p, List.mem_cons_self p rest, h3⟩
    | inr h2 =>
      obtain ⟨q, hq, he⟩ := h2
      exact Or.inr ⟨q, List.mem_cons_of_mem p hq, he⟩

/-! ## Claim C6: the attribute parser -/

/-- C6: the attribute parser strips surrounding double quotes from quoted
values and never splits inside a quoted value — on the claim's input the
result is exactly `BANDWIDTH = 800000`, `RESOLUTION = 640x360` and
`CODECS = avc1.4d401e,mp4a.40.2` with the comma inside the quoted CODECS
value intact — and, in general, no value in any parsed mapping contains a
double-quote character (quoted values lose their quotes, unquoted values
can never contain one). -/
theorem c6_attribute_parsing :
    parse_m3u8_attributes
        "#EXT-X-STREAM-INF:BANDWIDTH=800000,RESOLUTION=640x360,CODECS=\"avc1.4d401e,mp4a.40.2\""
      = [("BANDWIDTH", "800000"), ("RESOLUTION", "640x360"),
         ("CODECS", "avc1.4d401e,mp4a.40.2")]
    ∧ ∀ (line : String) (kv : String × String),
        kv ∈ parse_m3u8_attributes line → dq ∉ kv.2.data := by
  constructor
  · decide
  · intro line kv h
    unfold parse_m3u8_attributes at h
    cases parse_fold_mem (fun v => (⟨stripQuotesChars v⟩ : String))
        (findAll line) [] kv h with
    | inl h2 => exact absurd h2 (List.not_mem_nil kv)
    | inr h2 =>
      obtain ⟨p, hp, he⟩ := h2
      obtain ⟨s2, r, hm⟩ := findAllAux_mem (line.length + 1) line.data p hp
      obtain ⟨l2, hv⟩ := matchAt_val s2 p.1 p.2 r hm
      rw [he]
      exact matchValue_noquote l2 p.2 r hv

/-- Witness for C6: the CODECS value parsed out of the claim's input —
with its internal comma preserved — contains no double-quote character. -/
theorem c6_witness :
    dq ∉ ("avc1.4d401e,mp4a.40.2" : String).data :=
  c6_attribute_parsing.2
    "#EXT-X-STREAM-INF:BANDWIDTH=800000,RESOLUTION=640x360,CODECS=\"avc1.4d401e,mp4a.40.2\""
    ("CODECS", "avc1.4d401e,mp4a.40.2") (by decide)

/-! ## Claim C7: media-name synthesis in the variant resolver -/

/-- A line that does not start with `#` does not start with any
`#`-initial tag either. -/
theorem pyStartsWith_hash_extend (u : String) (L : List Char)
    (h : pyStartsWith u "#" = false) : isPrefixChars ('#' :: L) u.data = false := by
  have h2 : isPrefixChars ['#'] u.data = false := h
  cases hd : u.data with
  | nil => rfl
  | cons c t =>
    rw [hd] at h2
    simp only [isPrefixChars, Bool.and_true] at h2
    show ('#' == c && isPrefixChars L t) = false
    rw [h2, Bool.false_and]

/-- C7: for a rendition URL line that arrives with pending format
attributes but no pending media declaration, the resolver emits exactly
one entry whose media `NAME` is synthesized by priority — `Source` when
the URL contains the substring `source`; otherwise the second component
of the format's `RESOLUTION` attribute split on `x`, with `p` appended;
otherwise the first `/`-separated component of the URL up to its first
`.` — and whose `GROUP-ID` and `TYPE` are the empty string; both pending
attribute slots are reset afterwards. -/
theorem c7_media_name_synthesis (st : ParseState) (u : String)
    (fd : List (String × String))
    (hf : st.formatOpt = some fd) (hm : st.mediaOpt = none)
    (hnc : pyStartsWith u "#" = false) (hm3u8 : pyEndsWith u ".m3u8" = true) :
    (pyContains u "source" = true →
      m3u8_step st u = some ⟨st.info ++ [⟨u,
        [("NAME", "Source"), ("GROUP-ID", ""), ("TYPE", "")], fill_defaults fd⟩],
        none, none⟩)
    ∧ (∀ res second, pyContains u "source" = false →
        dictGet "RESOLUTION" fd = some res →
        (res.splitOn "x")[1]? = some second →
      m3u8_step st u = some ⟨st.info ++ [⟨u,
        [("NAME", second ++ "p"), ("GROUP-ID", ""), ("TYPE", "")], fill_defaults fd⟩],
        none, none⟩)
    ∧ (pyContains u "source" = false → dictGet "RESOLUTION" fd = none →
      m3u8_step st u = some ⟨st.info ++ [⟨u,
        [("NAME", (((u.splitOn "/").headD "").splitOn ".").headD ""),
         ("GROUP-ID", ""), ("TYPE", "")], fill_defaults fd⟩],
        none, none⟩) := by
  have h1 : pyStartsWith u "#EXT-X-MEDIA:" = false :=
    pyStartsWith_hash_extend u "EXT-X-MEDIA:".data hnc
  have h2 : pyStartsWith u "#EXT-X-STREAM-INF:" = false :=
    pyStartsWith_hash_extend u "EXT-X-STREAM-INF:".data hnc
  have hstep : m3u8_step st u = (match synth_media u fd with
      | none => none
      | some md => some ⟨st.info ++ [⟨u, md, fill_defaults fd⟩], none, none⟩) := by
    simp only [m3u8_step, h1, h2, hnc, hm3u8, hf, hm, Bool.false_eq_true, if_false,
      if_true]
  refine ⟨?_, ?_, ?_⟩
  · intro hsrc
    rw [hstep]
    unfold synth_media
    rw [hsrc]
    simp
  · intro res second hnsrc hres hsecond
    rw [hstep]
    unfold synth_media
    simp [hnsrc, hres, hsecond]
  · intro hnsrc hres
    rw [hstep]
    unfold synth_media
    rw [hnsrc, hres]
    simp

/-- Witness for C7: a rendition URL containing the substring `source`,
reached with pending format details and no media tag, yields a single
entry named `Source` with empty `GROUP-ID` and `TYPE`. -/
theorem c7_witness :
    m3u8_step ⟨[], none, some [("BANDWIDTH", "4000000")]⟩
        "chunklist_source/chunklist.m3u8"
      = some ⟨[⟨"chunklist_source/chunklist.m3u8",
          [("NAME", "Source"), ("GROUP-ID", ""), ("TYPE", "")],
          fill_defaults [("BANDWIDTH", "4000000")]⟩], none, none⟩ :=
  (c7_media_name_synthesis ⟨[], none, some [("BANDWIDTH", "4000000")]⟩
    "chunklist_source/chunklist.m3u8" [("BANDWIDTH", "4000000")]
    rfl rfl (by decide) (by decide)).1 (by decide)
